import Mathlib

/-!
Verification of the facescraper repository: a shallow embedding of the
HTML section parsers (from `parsers.py`) and the CSV writer (from
`writers.py`), with theorems settling the specification claims.

The parsers operate on the visible text already extracted from the HTML
tree, so each extraction routine is embedded as a function from the list
of text contents of the relevant child elements (one `String` per `<li>`
for the flat enumerations, one `List String` per `<p>` record for the
recognized-machines section, holding the record's text segments in
order) to the produced rows.  Fallible code returns `Except String`.
-/

namespace Facescraper

/-- Python runtime values that appear in parsed rows: `str` values,
`int` values (from `enumerate`) and `bytes` values (from
`str.encode('ascii', 'ignore')`, carried as the surviving ASCII text). -/
inductive Value : Type where
  | str (s : String)
  | int (n : Nat)
  | bytes (s : String)
  deriving DecidableEq

/-- Whether a `Value` is a Python `str`. -/
def isStringValue : Value → Bool
  | .str _ => true
  | _ => false

/-- A parsed row: a Python dict in insertion order. -/
abbrev VRow := List (String × Value)

/-- Python dict lookup `m.get(k)` on an insertion-ordered association list. -/
def dictLookup (k : String) : List (String × α) → Option α
  | [] => none
  | kv :: rest => if kv.1 = k then some kv.2 else dictLookup k rest

/-- Python dict assignment `m[k] = v`: updating an existing key keeps its
position, a new key is appended at the end. -/
def dictInsert (k : String) (v : α) (m : List (String × α)) : List (String × α) :=
  if m.any (fun kv => decide (kv.1 = k)) then
    m.map (fun kv => if kv.1 = k then (k, v) else kv)
  else
    m ++ [(k, v)]

/-- Python substring containment `needle in haystack` for `str` operands. -/
def pyStrIn (needle haystack : String) : Bool :=
  haystack.data.tails.any (fun t => needle.data.isPrefixOf t)

/-- `BaseParser.SECTION_NAMES = (SECURITY_SECTION)`: the parenthesised
expression is the plain string `'security'`, not a tuple. -/
def SECTION_NAMES : String := "security"

/-- `BaseParser._validate_inputs`: raises `ValueError` when
`section not in SECTION_NAMES`, which on a string operand is a substring
test.  Performs no file I/O. -/
def validateSectionInputs (sectionName : String) : Except String Unit :=
  if pyStrIn sectionName SECTION_NAMES then
    Except.ok ()
  else
    Except.error (sectionName ++ (" is not a valid section. Enter one of: ") ++ SECTION_NAMES)

/-- The state held by a constructed `BaseParser`. -/
structure BaseParser : Type where
  sectionName : String
  deriving DecidableEq

/-- `BaseParser.__init__`: validate the section, then store it.  No file
I/O happens here; files are only opened inside the `_parse_*` methods. -/
def mkBaseParser (sectionName : String) : Except String BaseParser :=
  match validateSectionInputs sectionName with
  | Except.ok _ => Except.ok ⟨sectionName⟩
  | Except.error e => Except.error e

/-- `BaseWriter.OUTPUT_TYPES = (CSV)`: again a plain string, not a tuple. -/
def OUTPUT_TYPES : String := "csv"

/-- `BaseWriter._validate_inputs`: raises `ValueError` when
`output_type not in OUTPUT_TYPES`, a substring test on the string. -/
def validateOutputInputs (outputType : String) : Except String Unit :=
  if pyStrIn outputType OUTPUT_TYPES then
    Except.ok ()
  else
    Except.error (outputType ++ (" is not a valid output. Enter one of: ") ++ OUTPUT_TYPES)

/-- The state held by a constructed `BaseWriter`. -/
structure BaseWriter : Type where
  outputType : String
  outputDir : String
  deriving DecidableEq

/-- `BaseWriter.__init__` with a provided (truthy) output directory:
validate the output type, then store both fields.  No file I/O here. -/
def mkBaseWriter (outputType outputDir : String) : Except String BaseWriter :=
  match validateOutputInputs outputType with
  | Except.ok _ => Except.ok ⟨outputType, outputDir⟩
  | Except.error e => Except.error e

/-- `field.split(':', 1)` restricted to the fallible two-element unpack
`fieldname, content = field.split(':', 1)`: splits at the first colon,
and is `none` (the `ValueError` case) when the string holds no colon. -/
def splitOnceColonAux : List Char → Option (List Char × List Char)
  | [] => none
  | c :: rest =>
    if c = ':' then some ([], rest)
    else (splitOnceColonAux rest).map (fun p => (c :: p.1, p.2))

/-- String-level wrapper for `splitOnceColonAux`. -/
def splitOnceColon (s : String) : Option (String × String) :=
  (splitOnceColonAux s.data).map (fun p => (⟨p.1⟩, ⟨p.2⟩))

/-- The loop body of `SecurityParser._parse_ip_addresses`:
`for idx, address in enumerate(...)` builds for each `<li>` text the dict
`{'Index': idx, 'IP Address': address.getText()}` and appends it. -/
def parseIpAddressesAux (idx : Nat) : List String → List VRow
  | [] => []
  | t :: rest =>
    [("Index", Value.int idx), ("IP Address", Value.str t)] :: parseIpAddressesAux (idx + 1) rest

/-- `SecurityParser._parse_ip_addresses`, as a function of the texts of
the `<li>` children of the targeted `<ul>`. -/
def parseIpAddresses (liTexts : List String) : List VRow :=
  parseIpAddressesAux 0 liTexts

/-- The inner loop of `SecurityParser._parse_recognized_machines` over
`record.strings`, accumulating `record_map[fieldname] = content`.  The
`none` result of the split is the propagated unpack `ValueError`. -/
def machineRecordMapAux (m : VRow) : List String → Except String VRow
  | [] => Except.ok m
  | f :: rest =>
    match splitOnceColon f with
    | none => Except.error ("not enough values to unpack (expected 2, got 1)")
    | some (n, c) => machineRecordMapAux (dictInsert n (Value.str c) m) rest

/-- The final state of `record_map` for one `<p>` record. -/
def machineRecordMap (fields : List String) : Except String VRow :=
  machineRecordMapAux [] fields

/-- The rows contributed by one `<p>` record.  The source appends the
same `record_map` dict object once per field line, inside the field
loop, so by the time the list is returned every appended entry aliases
the final accumulated mapping: the record contributes
`fields.length` copies of that mapping. -/
def machineRecordRows (fields : List String) : Except String (List VRow) :=
  (machineRecordMap fields).map (fun m => List.replicate fields.length m)

/-- `SecurityParser._parse_recognized_machines`, as a function of the
per-record lists of text segments of the `<p>` children of the targeted
`<ul>`.  The outer loop accumulates `machine_list` across records; an
exception in any record propagates out of the method. -/
def parseRecognizedMachines : List (List String) → Except String (List VRow)
  | [] => Except.ok []
  | rec :: rest =>
    match machineRecordRows rec with
    | Except.error e => Except.error e
    | Except.ok rows =>
      match parseRecognizedMachines rest with
      | Except.error e => Except.error e
      | Except.ok more => Except.ok (rows ++ more)

/-- `s.encode('ascii', 'ignore')`: the bytes keep exactly the ASCII
characters of the text, non-ASCII characters are dropped. -/
def asciiIgnore (s : String) : String :=
  ⟨s.data.filter (fun c => c.toNat < 128)⟩

/-- The loop body of `SecurityParser._parse_allowed_applications`. -/
def parseAllowedApplicationsAux (idx : Nat) : List String → List VRow
  | [] => []
  | t :: rest =>
    [("Index", Value.int idx), ("App Name", Value.bytes (asciiIgnore t))] ::
      parseAllowedApplicationsAux (idx + 1) rest

/-- `SecurityParser._parse_allowed_applications`, as a function of the
texts of the `<li>` children of the targeted `<ul>` in `apps.htm`. -/
def parseAllowedApplications (liTexts : List String) : List VRow :=
  parseAllowedApplicationsAux 0 liTexts

/-- The loop body of `SecurityParser._parse_advertisers`. -/
def parseAdvertisersAux (idx : Nat) : List String → List VRow
  | [] => []
  | t :: rest =>
    [("Index", Value.int idx), ("Name", Value.bytes (asciiIgnore t))] ::
      parseAdvertisersAux (idx + 1) rest

/-- `SecurityParser._parse_advertisers`, as a function of the texts of
the `<li>` children of the targeted `<ul>` in `ads.htm`. -/
def parseAdvertisers (liTexts : List String) : List VRow :=
  parseAdvertisersAux 0 liTexts

/-- One packet dict built by `SecurityParser.run`. -/
structure Packet : Type where
  sectionName : String
  subsection : String
  data : List VRow
  fieldnames : List String
  deriving DecidableEq

/-- The declared column names of the recognized-machines packet. -/
def machineFieldnames : List String :=
  ["IP Address", "Updated", "Browser", "Created", "Cookie"]

/-- `SecurityParser.run`: performs the four extractions in order and
returns the four packets, as a function of the text contents each
extraction sees in its document. -/
def securityRun (ipTexts : List String) (machineRecords : List (List String))
    (appTexts adTexts : List String) : Except String (List Packet) :=
  match parseRecognizedMachines machineRecords with
  | Except.error e => Except.error e
  | Except.ok machineData =>
    Except.ok
      [ ⟨"security", "ip_addresses", parseIpAddresses ipTexts, ["Index", "IP Address"]⟩,
        ⟨"security", "recognized_machines", machineData, machineFieldnames⟩,
        ⟨"security", "allowed_apps", parseAllowedApplications appTexts, ["Index", "App Name"]⟩,
        ⟨"security", "advertisers", parseAdvertisers adTexts, ["Index", "Name"]⟩ ]

/-! ## The CSV writer (`writers.py`)

`CSVWriter._dump_to_csv` writes with `csv.DictWriter` in the default
`excel` dialect: comma delimiter, quote character `"`, `doublequote`
escaping, CRLF line terminator, `QUOTE_MINIMAL` quoting, `restval=None`
(printed as the empty string), `extrasaction='raise'`.  Rows here are the
data model's rows: ordered mappings from column name to string value. -/

/-- The CSV quote character `"`. -/
def dquote : Char := Char.ofNat 34

/-- A data-model row for the writer: an ordered mapping from column name
to string value. -/
abbrev SRow := List (String × String)

/-- Whether a character forces `QUOTE_MINIMAL` to quote the field: the
delimiter, the quote character, or a line-terminator character. -/
def csvSpecial (c : Char) : Bool :=
  decide (c = ',' ∨ c = dquote ∨ c = '\r' ∨ c = '\n')

/-- Whether `QUOTE_MINIMAL` quotes the field. -/
def needsQuote (s : List Char) : Bool :=
  s.any csvSpecial

/-- `doublequote` escaping: each quote character is doubled. -/
def dupQuotes : List Char → List Char
  | [] => []
  | c :: rest =>
    if c = dquote then dquote :: dquote :: dupQuotes rest else c :: dupQuotes rest

/-- One written field under `QUOTE_MINIMAL`. -/
def renderField (s : List Char) : List Char :=
  if needsQuote s then dquote :: (dupQuotes s ++ [dquote]) else s

/-- One written record: fields joined by the comma delimiter. -/
def renderRecord : List (List Char) → List Char
  | [] => []
  | [c] => renderField c
  | c :: rest => renderField c ++ ',' :: renderRecord rest

/-- The written file: each record followed by the CRLF line terminator. -/
def renderGrid : List (List (List Char)) → List Char
  | [] => []
  | r :: rs => renderRecord r ++ '\r' :: '\n' :: renderGrid rs

/-- The cells `DictWriter.writerow` emits for one row dict:
`row.get(key, restval)` for each fieldname in declared order, a missing
column printing as the empty string. -/
def rowCells (fieldnames : List String) (row : SRow) : List (List Char) :=
  fieldnames.map (fun k => ((dictLookup k row).getD ("")).data)

/-- The `extrasaction='raise'` check of `DictWriter.writerow`: every key
of every row must be among the fieldnames. -/
def rowsWithinFieldnames (fieldnames : List String) (rows : List SRow) : Bool :=
  rows.all (fun r => r.all (fun kv => fieldnames.contains kv.1))

/-- The full file content `CSVWriter._dump_to_csv` writes:
`writer.writeheader()`, then one `writer.writerow(row)` per row. -/
def csvContent (fieldnames : List String) (rows : List SRow) : String :=
  ⟨renderGrid ((fieldnames.map String.data) :: rows.map (rowCells fieldnames))⟩

/-- The writing step of `CSVWriter._dump_to_csv`: `DictWriter` raises
`ValueError` when some row holds a key not among the fieldnames,
otherwise the opened file receives exactly `csvContent`. -/
def dumpToCsv (fieldnames : List String) (rows : List SRow) : Except String String :=
  if rowsWithinFieldnames fieldnames rows then Except.ok (csvContent fieldnames rows)
  else Except.error ("dict contains fields not in fieldnames")

/-! ## A CSV reader, for the round-trip property

The repository contains no reader, so the read-back direction of the
spec's round-trip property is modelled from the spec. -/

/-- Modelled from the spec: "reading the produced tabular file back".
`parseQuoted` consumes the remainder of a quoted field after its opening
quote; a doubled quote stands for a literal quote character. -/
def parseQuoted : List Char → Option (List Char × List Char)
  | [] => none
  | c :: rest =>
    if c = dquote then
      match rest with
      | c2 :: rest2 =>
        if c2 = dquote then (parseQuoted rest2).map (fun p => (dquote :: p.1, p.2))
        else some ([], rest)
      | [] => some ([], [])
    else (parseQuoted rest).map (fun p => (c :: p.1, p.2))

/-- Characters ending an unquoted field. -/
def csvStop (c : Char) : Bool :=
  decide (c = ',' ∨ c = '\r' ∨ c = '\n')

/-- Modelled from the spec (reader): one field, quoted or plain. -/
def parseField : List Char → Option (List Char × List Char)
  | [] => some ([], [])
  | c :: rest =>
    if c = dquote then parseQuoted rest
    else some ((c :: rest).takeWhile (fun x => !csvStop x),
               (c :: rest).dropWhile (fun x => !csvStop x))

/-- Modelled from the spec (reader): one CRLF-terminated record, at
least one field, fields separated by commas. -/
def parseRecordAux : Nat → List Char → Option (List (List Char) × List Char)
  | 0, _ => none
  | fuel + 1, cs =>
    match parseField cs with
    | none => none
    | some (f, rest) =>
      match rest with
      | ',' :: rest2 =>
        match parseRecordAux fuel rest2 with
        | some (fs, rest3) => some (f :: fs, rest3)
        | none => none
      | '\r' :: '\n' :: rest2 => some ([f], rest2)
      | _ => none

/-- Modelled from the spec (reader): the whole file as a list of
records; the empty remainder after the final CRLF ends the file. -/
def parseGridAux : Nat → List Char → Option (List (List (List Char)))
  | _, [] => some []
  | 0, _ :: _ => none
  | fuel + 1, c :: cs =>
    match parseRecordAux (c :: cs).length (c :: cs) with
    | some (r, rest) => (parseGridAux fuel rest).map (fun g => r :: g)
    | none => none

/-- Modelled from the spec (reader): parse a whole file. -/
def parseGrid (cs : List Char) : Option (List (List (List Char))) :=
  parseGridAux cs.length cs

/-- Modelled from the spec (reader): read the produced tabular file back
as ordered field mappings — the first record is the header and every
later record is zipped against it in order. -/
def readBack (s : String) : Option (List String × List SRow) :=
  match parseGrid s.data with
  | some (h :: rs) =>
    some (h.map (fun cs => (⟨cs⟩ : String)),
      rs.map (fun cells =>
        (h.map (fun cs => (⟨cs⟩ : String))).zip (cells.map (fun cs => (⟨cs⟩ : String)))))
  | _ => none

/-! ## The file-system side of `CSVWriter._dump_to_csv` -/

/-- The file-system state the writer touches: the directories that exist
and the file contents, most recent write first. -/
structure FileSystem : Type where
  dirs : List String
  files : List (String × String)
  deriving DecidableEq

/-- `'{dirname}/{section}'` as built in `_dump_to_csv`. -/
def csvDirname (outputDir sectionName : String) : String :=
  outputDir ++ ("/") ++ sectionName

/-- `'{dirname}/{name}.{ext}'` as built in `_dump_to_csv`. -/
def csvFilename (outputDir sectionName subsection outputType : String) : String :=
  csvDirname outputDir sectionName ++ ("/") ++ subsection ++ (".") ++ outputType

/-- `CSVWriter._dump_to_csv` as a file-system transformer: create the
section directory when absent (`os.makedirs`; parent segments are not
tracked separately), then open the file in mode `'w'` and write the CSV
content, replacing whatever the file held before.  The `ValueError` of
`DictWriter.writerow` is collapsed to the raised error; the partially
written file that the exception leaves behind is not modelled, and no
claim depends on it. -/
def dumpToCsvFS (outputDir outputType sectionName subsection : String)
    (rows : List SRow) (fieldnames : List String) (fs : FileSystem) :
    Except String FileSystem :=
  let dirname := csvDirname outputDir sectionName
  let fs1 : FileSystem :=
    if fs.dirs.contains dirname then fs else ⟨dirname :: fs.dirs, fs.files⟩
  match dumpToCsv fieldnames rows with
  | Except.error e => Except.error e
  | Except.ok content =>
    Except.ok ⟨fs1.dirs,
      (csvFilename outputDir sectionName subsection outputType, content) :: fs1.files⟩

/-! ## Helper lemmas: splitting on the first colon -/

theorem splitOnceColonAux_eq_none (cs : List Char) (h : ':' ∉ cs) :
    splitOnceColonAux cs = none := by
  induction cs with
  | nil => rfl
  | cons c rest ih =>
    simp only [List.mem_cons, not_or] at h
    have hc : ¬c = ':' := fun hcc => h.1 hcc.symm
    simp [splitOnceColonAux, hc, ih h.2]

theorem splitOnceColonAux_isSome (cs : List Char) (h : ':' ∈ cs) :
    ∃ a b, splitOnceColonAux cs = some (a, b) := by
  induction cs with
  | nil => cases h
  | cons c rest ih =>
    by_cases hc : c = ':'
    · exact ⟨[], rest, by simp [splitOnceColonAux, hc]⟩
    · have hr : ':' ∈ rest := by
        rcases List.mem_cons.mp h with h1 | h2
        · exact absurd h1.symm hc
        · exact h2
      obtain ⟨a, b, hab⟩ := ih hr
      exact ⟨c :: a, b, by simp [splitOnceColonAux, hc, hab]⟩

theorem splitOnceColon_eq_none (f : String) (h : ':' ∉ f.data) :
    splitOnceColon f = none := by
  simp [splitOnceColon, splitOnceColonAux_eq_none f.data h]

theorem splitOnceColon_isSome (f : String) (h : ':' ∈ f.data) :
    ∃ n c, splitOnceColon f = some (n, c) := by
  obtain ⟨a, b, hab⟩ := splitOnceColonAux_isSome f.data h
  exact ⟨⟨a⟩, ⟨b⟩, by simp [splitOnceColon, hab]⟩

/-! ## Helper lemmas: the insertion-ordered dict -/

theorem dictLookup_map_update (k : String) (v : α) (m : List (String × α))
    (hk : ∃ kv ∈ m, kv.1 = k) :
    dictLookup k (m.map (fun kv => if kv.1 = k then (k, v) else kv)) = some v := by
  induction m with
  | nil => obtain ⟨kv, h, _⟩ := hk; cases h
  | cons kv rest ih =>
    by_cases h1 : kv.1 = k
    · simp [dictLookup, h1]
    · rw [List.map_cons, if_neg h1]
      show dictLookup k (kv :: _) = some v
      rw [dictLookup, if_neg h1]
      apply ih
      obtain ⟨kv2, hmem, hkv2⟩ := hk
      rcases List.mem_cons.mp hmem with rfl | h
      · exact absurd hkv2 h1
      · exact ⟨kv2, h, hkv2⟩

theorem dictLookup_append_self (k : String) (v : α) (m : List (String × α))
    (hk : ∀ kv ∈ m, kv.1 ≠ k) :
    dictLookup k (m ++ [(k, v)]) = some v := by
  induction m with
  | nil => simp [dictLookup]
  | cons kv rest ih =>
    have h1 : kv.1 ≠ k := hk kv (List.mem_cons_self kv rest)
    rw [List.cons_append]
    show dictLookup k (kv :: _) = some v
    rw [dictLookup, if_neg h1]
    exact ih (fun kv2 h => hk kv2 (List.mem_cons_of_mem kv h))

theorem dictLookup_dictInsert_self (k : String) (v : α) (m : List (String × α)) :
    dictLookup k (dictInsert k v m) = some v := by
  unfold dictInsert
  by_cases hk : m.any (fun kv => decide (kv.1 = k)) = true
  · rw [if_pos hk]
    apply dictLookup_map_update
    simpa using hk
  · rw [if_neg hk]
    apply dictLookup_append_self
    intro kv h hkk
    exact hk (List.any_eq_true.mpr ⟨kv, h, by simp [hkk]⟩)

theorem dictLookup_map_update_ne (k n : String) (v : α) (m : List (String × α))
    (hkn : n ≠ k) :
    dictLookup k (m.map (fun kv => if kv.1 = n then (n, v) else kv)) = dictLookup k m := by
  induction m with
  | nil => rfl
  | cons kv rest ih =>
    by_cases h1 : kv.1 = n
    · rw [List.map_cons, if_pos h1]
      show dictLookup k ((n, v) :: _) = _
      rw [dictLookup, if_neg hkn, dictLookup, h1, if_neg hkn]
      exact ih
    · rw [List.map_cons, if_neg h1]
      show dictLookup k (kv :: _) = _
      by_cases h2 : kv.1 = k
      · rw [dictLookup, if_pos h2, dictLookup, if_pos h2]
      · rw [dictLookup, if_neg h2, dictLookup, if_neg h2]
        exact ih

theorem dictLookup_append_of_isSome (k : String) (m m2 : List (String × α))
    (h : (dictLookup k m).isSome = true) :
    dictLookup k (m ++ m2) = dictLookup k m := by
  induction m with
  | nil => simp [dictLookup] at h
  | cons kv rest ih =>
    rw [List.cons_append]
    by_cases h1 : kv.1 = k
    · show dictLookup k (kv :: _) = _
      rw [dictLookup, if_pos h1, dictLookup, if_pos h1]
    · rw [dictLookup, if_neg h1] at h
      show dictLookup k (kv :: _) = _
      rw [dictLookup, if_neg h1, dictLookup, if_neg h1]
      exact ih h

theorem dictLookup_dictInsert_isSome (k n : String) (v : α) (m : List (String × α))
    (h : (dictLookup k m).isSome = true) :
    (dictLookup k (dictInsert n v m)).isSome = true := by
  by_cases hkn : n = k
  · subst hkn
    rw [dictLookup_dictInsert_self]
    rfl
  · unfold dictInsert
    split
    · rw [dictLookup_map_update_ne k n v m hkn]
      exact h
    · rw [dictLookup_append_of_isSome k m [(n, v)] h]
      exact h

theorem mem_keys_dictInsert (kv : String × α) (k : String) (v : α) (m : List (String × α))
    (h : kv ∈ dictInsert k v m) :
    kv.1 = k ∨ kv.1 ∈ m.map Prod.fst := by
  unfold dictInsert at h
  split at h
  · obtain ⟨kv2, hmem, hkv2⟩ := List.mem_map.mp h
    by_cases h1 : kv2.1 = k
    · rw [if_pos h1] at hkv2
      left
      rw [← hkv2]
    · rw [if_neg h1] at hkv2
      right
      rw [← hkv2]
      exact List.mem_map_of_mem Prod.fst hmem
  · rcases List.mem_append.mp h with h2 | h2
    · right
      exact List.mem_map_of_mem Prod.fst h2
    · left
      simp only [List.mem_singleton] at h2
      rw [h2]

theorem keys_dictInsert (k : String) (v : α) (m : List (String × α)) (x : String)
    (h : x ∈ (dictInsert k v m).map Prod.fst) :
    x = k ∨ x ∈ m.map Prod.fst := by
  obtain ⟨kv, hmem, hkv⟩ := List.mem_map.mp h
  rcases mem_keys_dictInsert kv k v m hmem with h1 | h1
  · left; rw [← hkv]; exact h1
  · right; rw [← hkv]; exact h1

/-! ## Helper lemmas: the recognized-machines record loop -/

theorem machineRecordMapAux_error (fields : List String) (m : VRow)
    (h : ∃ f ∈ fields, ':' ∉ f.data) :
    ∃ e, machineRecordMapAux m fields = Except.error e := by
  induction fields generalizing m with
  | nil => obtain ⟨f, hf, _⟩ := h; cases hf
  | cons f0 rest ih =>
    by_cases h0 : ':' ∈ f0.data
    · obtain ⟨n, c, hnc⟩ := splitOnceColon_isSome f0 h0
      obtain ⟨f, hf, hcol⟩ := h
      rcases List.mem_cons.mp hf with rfl | hmem
      · exact absurd h0 hcol
      · obtain ⟨e, he⟩ := ih (dictInsert n (Value.str c) m) ⟨f, hmem, hcol⟩
        exact ⟨e, by simp [machineRecordMapAux, hnc, he]⟩
    · exact ⟨"not enough values to unpack (expected 2, got 1)",
        by simp [machineRecordMapAux, splitOnceColon_eq_none f0 h0]⟩

theorem machineRecordMapAux_ok (fields : List String) (m : VRow)
    (h : ∀ f ∈ fields, ':' ∈ f.data) :
    ∃ m2, machineRecordMapAux m fields = Except.ok m2 := by
  induction fields generalizing m with
  | nil => exact ⟨m, rfl⟩
  | cons f0 rest ih =>
    obtain ⟨n, c, hnc⟩ := splitOnceColon_isSome f0 (h f0 (List.mem_cons_self f0 rest))
    obtain ⟨m2, hm2⟩ :=
      ih (dictInsert n (Value.str c) m) (fun f hf => h f (List.mem_cons_of_mem f0 hf))
    exact ⟨m2, by simp [machineRecordMapAux, hnc, hm2]⟩

theorem machineRecordMapAux_preserves_key (fields : List String) (m0 m : VRow) (k : String)
    (hk : (dictLookup k m0).isSome = true)
    (hok : machineRecordMapAux m0 fields = Except.ok m) :
    (dictLookup k m).isSome = true := by
  induction fields generalizing m0 with
  | nil =>
    simp only [machineRecordMapAux, Except.ok.injEq] at hok
    subst hok
    exact hk
  | cons f0 rest ih =>
    simp only [machineRecordMapAux] at hok
    split at hok
    · cases hok
    next n0 c0 heq =>
      exact ih _ (dictLookup_dictInsert_isSome k n0 (Value.str c0) m0 hk) hok

theorem machineRecordMapAux_key_present (fields : List String) (m0 m : VRow)
    (hok : machineRecordMapAux m0 fields = Except.ok m) :
    ∀ f ∈ fields, ∀ n c, splitOnceColon f = some (n, c) →
      (dictLookup n m).isSome = true := by
  induction fields generalizing m0 with
  | nil => intro f hf; cases hf
  | cons f0 rest ih =>
    intro f hf n c hnc
    simp only [machineRecordMapAux] at hok
    split at hok
    · cases hok
    next n0 c0 heq =>
      rcases List.mem_cons.mp hf with rfl | hmem
      · rw [heq] at hnc
        simp only [Option.some.injEq, Prod.mk.injEq] at hnc
        rw [← hnc.1]
        exact machineRecordMapAux_preserves_key rest _ m n0
          (by rw [dictLookup_dictInsert_self]; rfl) hok
      · exact ih _ hok f hmem n c hnc

theorem machineRecordMapAux_keys (fields : List String) (m0 m2 : VRow)
    (hok : machineRecordMapAux m0 fields = Except.ok m2) :
    ∀ kv ∈ m2, kv.1 ∈ m0.map Prod.fst ∨
      ∃ f ∈ fields, ∃ c, splitOnceColon f = some (kv.1, c) := by
  induction fields generalizing m0 with
  | nil =>
    simp only [machineRecordMapAux, Except.ok.injEq] at hok
    subst hok
    intro kv h
    exact Or.inl (List.mem_map_of_mem Prod.fst h)
  | cons f0 rest ih =>
    simp only [machineRecordMapAux] at hok
    split at hok
    · cases hok
    next n0 c0 heq =>
      intro kv hmem
      rcases ih (dictInsert n0 (Value.str c0) m0) hok kv hmem with h | ⟨f, hf, c2, hc2⟩
      · rcases keys_dictInsert n0 (Value.str c0) m0 kv.1 h with h1 | h1
        · exact Or.inr ⟨f0, List.mem_cons_self f0 rest, c0, by rw [h1]; exact heq⟩
        · exact Or.inl h1
      · exact Or.inr ⟨f, List.mem_cons_of_mem f0 hf, c2, hc2⟩

theorem parseRecognizedMachines_rows (records : List (List String)) (rows : List VRow)
    (hok : parseRecognizedMachines records = Except.ok rows) :
    ∀ r ∈ rows, ∃ rec ∈ records, machineRecordMap rec = Except.ok r := by
  induction records generalizing rows with
  | nil =>
    simp only [parseRecognizedMachines, Except.ok.injEq] at hok
    subst hok
    intro r h
    cases h
  | cons rec0 rest ih =>
    simp only [parseRecognizedMachines] at hok
    split at hok
    · cases hok
    next rows0 heq =>
      split at hok
      · cases hok
      next more heq2 =>
        simp only [Except.ok.injEq] at hok
        subst hok
        intro r hr
        rcases List.mem_append.mp hr with h | h
        · refine ⟨rec0, List.mem_cons_self rec0 rest, ?_⟩
          unfold machineRecordRows at heq
          cases hm : machineRecordMap rec0 with
          | error e => rw [hm] at heq; cases heq
          | ok m =>
            rw [hm] at heq
            simp only [Except.map, Except.ok.injEq] at heq
            rw [← heq] at h
            obtain rfl : r = m := List.eq_of_mem_replicate h
            rfl
        · obtain ⟨rec, hrec, hm⟩ := ih more heq2 r h
          exact ⟨rec, List.mem_cons_of_mem rec0 hrec, hm⟩

/-! ## Helper lemmas: the flat enumerations -/

theorem parseIpAddressesAux_length (l : List String) (k : Nat) :
    (parseIpAddressesAux k l).length = l.length := by
  induction l generalizing k with
  | nil => rfl
  | cons t rest ih => simp [parseIpAddressesAux, ih]

theorem parseIpAddressesAux_getElem (l : List String) (k i : Nat) :
    (parseIpAddressesAux k l)[i]? =
      (l[i]?).map (fun t => [("Index", Value.int (k + i)), ("IP Address", Value.str t)]) := by
  induction l generalizing k i with
  | nil => simp [parseIpAddressesAux]
  | cons t rest ih =>
    cases i with
    | zero => simp [parseIpAddressesAux]
    | succ j =>
      simp only [parseIpAddressesAux, List.getElem?_cons_succ]
      have harith : k + (j + 1) = k + 1 + j := by omega
      rw [harith]
      exact ih (k + 1) j

theorem parseIpAddressesAux_keys (l : List String) (k : Nat) :
    ∀ r ∈ parseIpAddressesAux k l, r.map Prod.fst = ["Index", "IP Address"] := by
  induction l generalizing k with
  | nil => intro r h; cases h
  | cons t rest ih =>
    intro r h
    rcases List.mem_cons.mp h with rfl | h2
    · rfl
    · exact ih (k + 1) r h2

theorem parseAllowedApplicationsAux_keys (l : List String) (k : Nat) :
    ∀ r ∈ parseAllowedApplicationsAux k l, r.map Prod.fst = ["Index", "App Name"] := by
  induction l generalizing k with
  | nil => intro r h; cases h
  | cons t rest ih =>
    intro r h
    rcases List.mem_cons.mp h with rfl | h2
    · rfl
    · exact ih (k + 1) r h2

theorem parseAdvertisersAux_keys (l : List String) (k : Nat) :
    ∀ r ∈ parseAdvertisersAux k l, r.map Prod.fst = ["Index", "Name"] := by
  induction l generalizing k with
  | nil => intro r h; cases h
  | cons t rest ih =>
    intro r h
    rcases List.mem_cons.mp h with rfl | h2
    · rfl
    · exact ih (k + 1) r h2

/-! ## Helper lemma: Python substring containment -/

theorem pyStrIn_of_infix (needle haystack : String)
    (h : needle.data <:+: haystack.data) : pyStrIn needle haystack = true := by
  obtain ⟨s, t, hst⟩ := h
  rw [pyStrIn, List.any_eq_true]
  refine ⟨needle.data ++ t, ?_, ?_⟩
  · rw [List.mem_tails, ← hst, List.append_assoc]
    exact List.suffix_append s (needle.data ++ t)
  · rw [List.isPrefixOf_iff_prefix]
    exact List.prefix_append needle.data t

/-! ## Claim theorems: the parsers -/

/-- Claim C1 (code evaluation at the failing input): the recognized-machines
extraction does NOT produce exactly one row per record element.  The source
appends `record_map` inside the per-field loop, so the record element whose
text lines are `Browser:Chrome` and `Created:2020-01-01` yields two rows
(both aliasing the same accumulated mapping), not one. -/
theorem recognizedMachines_duplicated_rows_eval :
    parseRecognizedMachines [["Browser:Chrome", "Created:2020-01-01"]]
      = Except.ok
          [ [("Browser", Value.str ("Chrome")), ("Created", Value.str ("2020-01-01"))],
            [("Browser", Value.str ("Chrome")), ("Created", Value.str ("2020-01-01"))] ] ∧
    (parseRecognizedMachines [["Browser:Chrome", "Created:2020-01-01"]]).map List.length
      = Except.ok 2 ∧ (2 : Nat) ≠ 1 :=
  ⟨rfl, rfl, by decide⟩

/-- Claim C2 (code evaluation at the failing input): constructing a
`BaseParser` with the section `'cur'`, which differs from `'security'`,
does NOT raise: `SECTION_NAMES = (SECURITY_SECTION)` is the plain string
`'security'`, so the `not in` check is a substring test that `'cur'`
passes. -/
theorem baseParser_accepts_cur_eval :
    mkBaseParser ("cur") = Except.ok ⟨"cur"⟩ ∧ ("cur" : String) ≠ ("security" : String) :=
  ⟨rfl, by decide⟩

/-- Claim C3: the flat-enumeration extraction (IP addresses) produces
exactly one row per child list element, in document order, and the row at
output position `i` carries `Index` value `i` (and the element's text as
`IP Address`). -/
theorem ipAddresses_flat_enumeration (liTexts : List String) (i : Nat) (t : String)
    (h : liTexts[i]? = some t) :
    (parseIpAddresses liTexts).length = liTexts.length ∧
    (parseIpAddresses liTexts)[i]? =
      some [("Index", Value.int i), ("IP Address", Value.str t)] := by
  refine ⟨parseIpAddressesAux_length liTexts 0, ?_⟩
  rw [parseIpAddresses, parseIpAddressesAux_getElem, h]
  simp

/-- Witness for C3 at the spec's three-address scenario. -/
theorem ipAddresses_flat_enumeration_witness :
    ((["1.1.1.1", "2.2.2.2", "3.3.3.3"] : List String)[2]? = some ("3.3.3.3")) ∧
    ((parseIpAddresses ["1.1.1.1", "2.2.2.2", "3.3.3.3"]).length
        = (["1.1.1.1", "2.2.2.2", "3.3.3.3"] : List String).length ∧
      (parseIpAddresses ["1.1.1.1", "2.2.2.2", "3.3.3.3"])[2]? =
        some [("Index", Value.int 2), ("IP Address", Value.str ("3.3.3.3"))]) :=
  ⟨rfl, ipAddresses_flat_enumeration ["1.1.1.1", "2.2.2.2", "3.3.3.3"] 2 ("3.3.3.3") rfl⟩

/-- Claim C4: whenever some line of some record's text contains no colon,
the recognized-machines extraction raises (the two-element unpack of
`split(':', 1)` fails); no such line is silently dropped. -/
theorem recognizedMachines_error_on_missing_colon (records : List (List String))
    (h : ∃ rec ∈ records, ∃ f ∈ rec, ':' ∉ f.data) :
    ∃ e, parseRecognizedMachines records = Except.error e := by
  induction records with
  | nil => obtain ⟨rec, hrec, _⟩ := h; cases hrec
  | cons rec0 rest ih =>
    obtain ⟨rec, hrec, f, hf, hcol⟩ := h
    rcases List.mem_cons.mp hrec with rfl | hmem
    · obtain ⟨e, he⟩ := machineRecordMapAux_error rec [] ⟨f, hf, hcol⟩
      refine ⟨e, ?_⟩
      simp [parseRecognizedMachines, machineRecordRows, machineRecordMap, he, Except.map]
    · cases h0 : machineRecordRows rec0 with
      | error e => exact ⟨e, by simp [parseRecognizedMachines, h0]⟩
      | ok rows0 =>
        obtain ⟨e, he⟩ := ih ⟨rec, hmem, f, hf, hcol⟩
        exact ⟨e, by simp [parseRecognizedMachines, h0, he]⟩

/-- Witness for C4 at the spec's `garbage` scenario. -/
theorem recognizedMachines_error_on_missing_colon_witness :
    (∃ rec ∈ [["garbage"]], ∃ f ∈ rec, ':' ∉ (f : String).data) ∧
    (∃ e, parseRecognizedMachines [["garbage"]] = Except.error e) :=
  ⟨by decide, recognizedMachines_error_on_missing_colon [["garbage"]] (by decide)⟩

/-- Claim C5 (counterexample): the packets returned by `SecurityParser.run`
do not all satisfy "rows map column names to string values with key sets
inside the declared `column_names`": on the document with one IP address
`1.1.1.1` and one machine record with the single line `Foo:Bar`, the check
of that invariant over the run's output evaluates to `false` (the `Index`
value is an `int`, and the machine row's key `Foo` is outside the declared
machine columns). -/
theorem run_packet_invariant_counterexample :
    ((securityRun ["1.1.1.1"] [["Foo:Bar"]] [] []).map
      (fun ps => ps.all (fun p => p.data.all (fun r =>
        r.all (fun kv => p.fieldnames.contains kv.1 && isStringValue kv.2)))))
    = Except.ok false := rfl

/-- Claim C5 (amended): every Packet returned by the extraction entry point
has each row's key set inside the Packet's declared `fieldnames`, provided
every field name occurring in the recognized-machines records is among the
declared machine columns (row values are Python values — the
flat-enumeration `Index` is an `int` and `App Name`/`Name` are byte
strings — not uniformly `str`). -/
theorem run_packet_keys_subset (ipTexts : List String)
    (machineRecords : List (List String)) (appTexts adTexts : List String)
    (packets : List Packet)
    (hm : ∀ rec ∈ machineRecords, ∀ f ∈ rec,
      ((splitOnceColon f).map (fun p => machineFieldnames.contains p.1)).getD true = true)
    (hrun : securityRun ipTexts machineRecords appTexts adTexts = Except.ok packets) :
    ∀ p ∈ packets, ∀ r ∈ p.data, ∀ kv ∈ r, kv.1 ∈ p.fieldnames := by
  simp only [securityRun] at hrun
  split at hrun
  · cases hrun
  next machineData heq =>
    simp only [Except.ok.injEq] at hrun
    subst hrun
    intro p hp r hr kv hkv
    simp only [List.mem_cons, List.not_mem_nil, or_false] at hp
    rcases hp with rfl | rfl | rfl | rfl
    · have hkeys := parseIpAddressesAux_keys ipTexts 0 r hr
      show kv.1 ∈ ["Index", "IP Address"]
      rw [← hkeys]
      exact List.mem_map_of_mem Prod.fst hkv
    · obtain ⟨rec, hrec, hmap⟩ := parseRecognizedMachines_rows machineRecords machineData heq r hr
      rcases machineRecordMapAux_keys rec [] r hmap kv hkv with h | ⟨f, hf, c, hc⟩
      · cases h
      · have := hm rec hrec f hf
        rw [hc] at this
        simp only [Option.map_some', Option.getD_some] at this
        exact List.elem_iff.mp this
    · have hkeys := parseAllowedApplicationsAux_keys appTexts 0 r hr
      show kv.1 ∈ ["Index", "App Name"]
      rw [← hkeys]
      exact List.mem_map_of_mem Prod.fst hkv
    · have hkeys := parseAdvertisersAux_keys adTexts 0 r hr
      show kv.1 ∈ ["Index", "Name"]
      rw [← hkeys]
      exact List.mem_map_of_mem Prod.fst hkv

/-- Witness for the amended C5 at a well-formed document. -/
theorem run_packet_keys_subset_witness :
    (∀ rec ∈ [["Browser:Chrome"]], ∀ f ∈ rec,
      ((splitOnceColon f).map (fun p => machineFieldnames.contains p.1)).getD true = true) ∧
    (∀ p ∈ [ (⟨"security", "ip_addresses",
                [[("Index", Value.int 0), ("IP Address", Value.str ("1.1.1.1"))]],
                ["Index", "IP Address"]⟩ : Packet),
             ⟨"security", "recognized_machines",
                [[("Browser", Value.str ("Chrome"))]], machineFieldnames⟩,
             ⟨"security", "allowed_apps",
                [[("Index", Value.int 0), ("App Name", Value.bytes ("AppX"))]],
                ["Index", "App Name"]⟩,
             ⟨"security", "advertisers",
                [[("Index", Value.int 0), ("Name", Value.bytes ("AdY"))]],
                ["Index", "Name"]⟩ ],
      ∀ r ∈ p.data, ∀ kv ∈ r, kv.1 ∈ p.fieldnames) :=
  ⟨by decide,
    run_packet_keys_subset ["1.1.1.1"] [["Browser:Chrome"]] ["AppX"] ["AdY"] _ (by decide) rfl⟩

/-- Claim C9: every contiguous substring of `'security'` is accepted as a
section by the parser constructor, and every contiguous substring of
`'csv'` is accepted as an output type by the writer constructor, because
both validations test membership in a string. -/
theorem substring_section_and_output_accepted (s t : String)
    (hs : s.data <:+: SECTION_NAMES.data) (ht : t.data <:+: OUTPUT_TYPES.data) :
    mkBaseParser s = Except.ok ⟨s⟩ ∧ mkBaseWriter t ("data") = Except.ok ⟨t, "data"⟩ := by
  have hps : pyStrIn s SECTION_NAMES = true := pyStrIn_of_infix s SECTION_NAMES hs
  have hpt : pyStrIn t OUTPUT_TYPES = true := pyStrIn_of_infix t OUTPUT_TYPES ht
  constructor
  · simp [mkBaseParser, validateSectionInputs, hps]
  · simp [mkBaseWriter, validateOutputInputs, hpt]

/-- Witness for C9 at the substrings `'cur'` and `'cs'`. -/
theorem substring_section_and_output_accepted_witness :
    (("cur" : String).data <:+: SECTION_NAMES.data) ∧
    (("cs" : String).data <:+: OUTPUT_TYPES.data) ∧
    (mkBaseParser ("cur") = Except.ok ⟨"cur"⟩ ∧
      mkBaseWriter ("cs") ("data") = Except.ok ⟨"cs", "data"⟩) :=
  ⟨by decide, by decide,
    substring_section_and_output_accepted ("cur") ("cs") (by decide) (by decide)⟩

/-- Claim C10: a record element whose text consists of `n` colon-containing
lines contributes exactly `n` rows, every one of them equal to the single
accumulated mapping of the element (the append sits inside the per-field
loop and appends the same dict object), and that mapping carries every
accumulated field name as a key. -/
theorem recognizedMachines_rows_per_element (fields : List String)
    (h : ∀ f ∈ fields, ':' ∈ f.data) :
    ∃ rows, machineRecordRows fields = Except.ok rows ∧
      rows.length = fields.length ∧
      (∀ r ∈ rows, machineRecordMap fields = Except.ok r) ∧
      (∀ r ∈ rows, ∀ f ∈ fields, ∀ n c, splitOnceColon f = some (n, c) →
        (dictLookup n r).isSome = true) := by
  obtain ⟨m, hm⟩ := machineRecordMapAux_ok fields [] h
  refine ⟨List.replicate fields.length m, ?_, List.length_replicate _ _, ?_, ?_⟩
  · simp [machineRecordRows, machineRecordMap, hm, Except.map]
  · intro r hr
    obtain rfl : r = m := List.eq_of_mem_replicate hr
    exact hm
  · intro r hr f hf n c hnc
    obtain rfl : r = m := List.eq_of_mem_replicate hr
    exact machineRecordMapAux_key_present fields [] r hm f hf n c hnc

/-- Witness for C10 at the spec's two-line record. -/
theorem recognizedMachines_rows_per_element_witness :
    (∀ f ∈ ["Browser:Chrome", "Created:2020-01-01"], ':' ∈ (f : String).data) ∧
    (∃ rows, machineRecordRows ["Browser:Chrome", "Created:2020-01-01"] = Except.ok rows ∧
      rows.length = (["Browser:Chrome", "Created:2020-01-01"] : List String).length ∧
      (∀ r ∈ rows, machineRecordMap ["Browser:Chrome", "Created:2020-01-01"] = Except.ok r) ∧
      (∀ r ∈ rows, ∀ f ∈ ["Browser:Chrome", "Created:2020-01-01"], ∀ n c,
        splitOnceColon f = some (n, c) → (dictLookup n r).isSome = true)) :=
  ⟨by decide, recognizedMachines_rows_per_element ["Browser:Chrome", "Created:2020-01-01"]
    (by decide)⟩

/-! ## Helper lemmas: the CSV round trip -/

theorem parseQuoted_cons (a : Char) (l : List Char) :
    parseQuoted (a :: l) =
      (if a = dquote then
        match l with
        | c2 :: rest2 =>
          if c2 = dquote then (parseQuoted rest2).map (fun p => (dquote :: p.1, p.2))
          else some ([], l)
        | [] => some ([], [])
      else (parseQuoted l).map (fun p => (a :: p.1, p.2))) := by
  rw [parseQuoted.eq_def]

theorem parseQuoted_dupQuotes (s : List Char) (c : Char) (rest : List Char)
    (hc : ¬c = dquote) :
    parseQuoted (dupQuotes s ++ dquote :: c :: rest) = some (s, c :: rest) := by
  induction s with
  | nil =>
    show parseQuoted (dquote :: c :: rest) = some ([], c :: rest)
    rw [parseQuoted_cons, if_pos rfl]
    show (if c = dquote then (parseQuoted rest).map (fun p => (dquote :: p.1, p.2))
        else some ([], c :: rest)) = some ([], c :: rest)
    rw [if_neg hc]
  | cons a s2 ih =>
    by_cases ha : a = dquote
    · subst ha
      have hd2 : dupQuotes (dquote :: s2) = dquote :: dquote :: dupQuotes s2 := by
        simp [dupQuotes]
      rw [hd2, List.cons_append, List.cons_append, parseQuoted_cons, if_pos rfl]
      show (if dquote = dquote then
          (parseQuoted (dupQuotes s2 ++ dquote :: c :: rest)).map
            (fun p => (dquote :: p.1, p.2))
        else some ([], dquote :: (dupQuotes s2 ++ dquote :: c :: rest)))
        = some (dquote :: s2, c :: rest)
      rw [if_pos rfl, ih]
      rfl
    · have hd2 : dupQuotes (a :: s2) = a :: dupQuotes s2 := by
        simp [dupQuotes, ha]
      rw [hd2, List.cons_append, parseQuoted_cons, if_neg ha, ih]
      rfl

theorem takeWhile_append_stop (p : Char → Bool) (s : List Char) (d : Char) (rest : List Char)
    (hs : ∀ c ∈ s, p c = true) (hd : p d = false) :
    (s ++ d :: rest).takeWhile p = s ∧ (s ++ d :: rest).dropWhile p = d :: rest := by
  induction s with
  | nil =>
    rw [List.nil_append]
    constructor
    · exact List.takeWhile_cons_of_neg (by rw [hd]; exact Bool.false_ne_true)
    · exact List.dropWhile_cons_of_neg (by rw [hd]; exact Bool.false_ne_true)
  | cons a s2 ih =>
    have ha : p a = true := hs a (List.mem_cons_self a s2)
    obtain ⟨h1, h2⟩ := ih (fun c hc => hs c (List.mem_cons_of_mem a hc))
    rw [List.cons_append]
    constructor
    · rw [List.takeWhile_cons_of_pos ha, h1]
    · rw [List.dropWhile_cons_of_pos ha, h2]

theorem parseField_renderField (s : List Char) (d : Char) (rest : List Char)
    (hd : d = ',' ∨ d = '\r') :
    parseField (renderField s ++ d :: rest) = some (s, d :: rest) := by
  have hdq : ¬d = dquote := by rcases hd with rfl | rfl <;> decide
  have hstop : csvStop d = true := by rcases hd with rfl | rfl <;> decide
  by_cases hq : needsQuote s = true
  · rw [renderField, if_pos hq]
    have hshape : (dquote :: (dupQuotes s ++ [dquote])) ++ d :: rest
        = dquote :: (dupQuotes s ++ dquote :: d :: rest) := by
      simp
    rw [hshape]
    show parseField (dquote :: _) = _
    simp only [parseField, if_pos rfl]
    exact parseQuoted_dupQuotes s d rest hdq
  · have hplain : ∀ c ∈ s, csvSpecial c = false := by
      intro c hc
      have := List.any_eq_false.mp (Bool.not_eq_true _ ▸ hq : needsQuote s = false) c hc
      simpa using this
    have hnotstop : ∀ c ∈ s, (!csvStop c) = true := by
      intro c hc
      have h1 := hplain c hc
      simp only [csvSpecial, decide_eq_false_iff_not, not_or] at h1
      simp only [csvStop, Bool.not_eq_true']
      simp only [decide_eq_false_iff_not, not_or]
      exact ⟨h1.1, h1.2.2.1, h1.2.2.2⟩
    have hdstop : (!csvStop d) = false := by rw [hstop]; rfl
    rw [renderField, if_neg hq]
    cases s with
    | nil =>
      rw [List.nil_append]
      show parseField (d :: rest) = _
      simp only [parseField, if_neg hdq]
      rw [List.takeWhile_cons_of_neg (by rw [hdstop]; exact Bool.false_ne_true),
        List.dropWhile_cons_of_neg (by rw [hdstop]; exact Bool.false_ne_true)]
    | cons a s2 =>
      have ha : ¬a = dquote := by
        have h1 := hplain a (List.mem_cons_self a s2)
        simp only [csvSpecial, decide_eq_false_iff_not, not_or] at h1
        exact h1.2.1
      obtain ⟨ht, hdr⟩ :=
        takeWhile_append_stop (fun x => !csvStop x) (a :: s2) d rest hnotstop hdstop
      rw [List.cons_append]
      show parseField (a :: (s2 ++ d :: rest)) = _
      simp only [parseField, if_neg ha]
      rw [← List.cons_append, ht, hdr]

theorem parseRecordAux_succ (fuel : Nat) (cs : List Char) :
    parseRecordAux (fuel + 1) cs =
      (match parseField cs with
      | none => none
      | some (f, rest) =>
        match rest with
        | ',' :: rest2 =>
          match parseRecordAux fuel rest2 with
          | some (fs, rest3) => some (f :: fs, rest3)
          | none => none
        | '\r' :: '\n' :: rest2 => some ([f], rest2)
        | _ => none) := by
  rw [parseRecordAux.eq_def]

theorem parseRecordAux_renderRecord (cells : List (List Char)) (rest : List Char) (fuel : Nat)
    (hne : cells ≠ []) (hfuel : cells.length ≤ fuel) :
    parseRecordAux fuel (renderRecord cells ++ '\r' :: '\n' :: rest) = some (cells, rest) := by
  induction cells generalizing fuel rest with
  | nil => exact absurd rfl hne
  | cons c cs ih =>
    cases fuel with
    | zero => simp at hfuel
    | succ f =>
      cases cs with
      | nil =>
        show parseRecordAux (f + 1) (renderField c ++ '\r' :: '\n' :: rest) = some ([c], rest)
        rw [parseRecordAux_succ, parseField_renderField c '\r' ('\n' :: rest) (Or.inr rfl)]
        rfl
      | cons c2 cs2 =>
        have hr : renderRecord (c :: c2 :: cs2) ++ '\r' :: '\n' :: rest
            = renderField c ++ ',' :: (renderRecord (c2 :: cs2) ++ '\r' :: '\n' :: rest) := by
          show (renderField c ++ ',' :: renderRecord (c2 :: cs2)) ++ '\r' :: '\n' :: rest = _
          simp
        have hlen : (c2 :: cs2).length ≤ f := by
          simp only [List.length_cons] at hfuel
          simp only [List.length_cons]
          omega
        rw [hr, parseRecordAux_succ,
          parseField_renderField c ',' (renderRecord (c2 :: cs2) ++ '\r' :: '\n' :: rest)
            (Or.inl rfl)]
        show (match parseRecordAux f (renderRecord (c2 :: cs2) ++ '\r' :: '\n' :: rest) with
          | some (fs, rest3) => some (c :: fs, rest3)
          | none => none) = some (c :: c2 :: cs2, rest)
        rw [ih rest f (by simp) hlen]

theorem parseGridAux_nil_input (fuel : Nat) : parseGridAux fuel [] = some [] := by
  cases fuel <;> rw [parseGridAux.eq_def]

theorem parseGridAux_cons (fuel : Nat) (cs : List Char) (hne : cs ≠ []) :
    parseGridAux (fuel + 1) cs =
      (match parseRecordAux cs.length cs with
      | some (r, rest) => (parseGridAux fuel rest).map (fun g => r :: g)
      | none => none) := by
  cases cs with
  | nil => exact absurd rfl hne
  | cons c cs2 => rw [parseGridAux.eq_def]

theorem renderRecord_length (cells : List (List Char)) (hne : cells ≠ []) :
    cells.length ≤ (renderRecord cells).length + 1 := by
  induction cells with
  | nil => exact absurd rfl hne
  | cons c cs ih =>
    cases cs with
    | nil => simp [renderRecord]
    | cons c2 cs2 =>
      have h2 := ih (by simp)
      show (c :: c2 :: cs2).length ≤ (renderField c ++ ',' :: renderRecord (c2 :: cs2)).length + 1
      simp only [List.length_cons, List.length_append] at h2 ⊢
      omega

theorem parseGridAux_renderGrid (grid : List (List (List Char))) (fuel : Nat)
    (hne : ∀ r ∈ grid, r ≠ []) (hfuel : grid.length ≤ fuel) :
    parseGridAux fuel (renderGrid grid) = some grid := by
  induction grid generalizing fuel with
  | nil =>
    show parseGridAux fuel [] = some []
    exact parseGridAux_nil_input fuel
  | cons r rs ih =>
    cases fuel with
    | zero => simp at hfuel
    | succ f =>
      have hrne : r ≠ [] := hne r (List.mem_cons_self r rs)
      have hgr : renderGrid (r :: rs) = renderRecord r ++ '\r' :: '\n' :: renderGrid rs := by
        rw [renderGrid.eq_def]
      have hnonempty : renderGrid (r :: rs) ≠ [] := by
        rw [hgr]
        cases renderRecord r <;> simp
      rw [parseGridAux_cons f _ hnonempty, hgr,
        parseRecordAux_renderRecord r (renderGrid rs) _ hrne
          (by
            simp only [List.length_append, List.length_cons]
            have h1 := renderRecord_length r hrne
            omega)]
      show (parseGridAux f (renderGrid rs)).map (fun g => r :: g) = some (r :: rs)
      rw [ih f (fun x hx => hne x (List.mem_cons_of_mem r hx))
        (by simp only [List.length_cons] at hfuel; omega)]
      rfl

theorem renderGrid_length_ge (grid : List (List (List Char))) :
    grid.length ≤ (renderGrid grid).length := by
  induction grid with
  | nil => exact Nat.le_refl _
  | cons r rs ih =>
    have hgr : renderGrid (r :: rs) = renderRecord r ++ '\r' :: '\n' :: renderGrid rs := by
      rw [renderGrid.eq_def]
    rw [hgr]
    simp only [List.length_cons, List.length_append]
    omega

theorem map_mk_map_data (l : List String) :
    (l.map String.data).map (fun cs => (⟨cs⟩ : String)) = l := by
  induction l with
  | nil => rfl
  | cons s rest ih => rw [List.map_cons, List.map_cons, ih]

theorem zip_self_map (l : List String) (g : String → String) :
    l.zip (l.map g) = l.map (fun k => (k, g k)) := by
  induction l with
  | nil => rfl
  | cons a rest ih => rw [List.map_cons, List.zip_cons_cons, ih, List.map_cons]

theorem rowCells_map_mk (fieldnames : List String) (row : SRow) :
    (rowCells fieldnames row).map (fun cs => (⟨cs⟩ : String))
      = fieldnames.map (fun k => (dictLookup k row).getD ("")) := by
  rw [rowCells, List.map_map]
  rfl

theorem rows_readback_eq (fieldnames : List String) (rows : List SRow) :
    rows.map ((fun cells =>
        fieldnames.zip (cells.map (fun cs => (⟨cs⟩ : String)))) ∘ rowCells fieldnames)
      = rows.map (fun r => fieldnames.map (fun k => (k, (dictLookup k r).getD ("")))) := by
  induction rows with
  | nil => rfl
  | cons row rest ih =>
    rw [List.map_cons, List.map_cons, ih]
    refine congrArg (fun x => x :: _) ?_
    show fieldnames.zip ((rowCells fieldnames row).map (fun cs => (⟨cs⟩ : String))) = _
    rw [rowCells_map_mk, zip_self_map]

theorem renderGrid_eq_flatten (g : List (List (List Char))) :
    renderGrid g = (g.map (fun r => renderRecord r ++ ['\r', '\n'])).flatten := by
  induction g with
  | nil => rfl
  | cons r rs ih =>
    have hgr : renderGrid (r :: rs) = renderRecord r ++ '\r' :: '\n' :: renderGrid rs := by
      rw [renderGrid.eq_def]
    rw [hgr, ih, List.map_cons, List.flatten_cons, List.append_assoc]
    rfl

/-! ## Claim theorems: the writer -/

/-- Claim C6: writing a Packet's rows to the tabular file and reading the
file back yields the column names and, for each original row, the row as
an ordered field mapping whose value at every declared column equals the
original row's value there — with a column missing from a row reading
back as the empty string. -/
theorem csv_roundtrip (fieldnames : List String) (rows : List SRow)
    (hne : fieldnames ≠ [])
    (hsub : rowsWithinFieldnames fieldnames rows = true) :
    dumpToCsv fieldnames rows = Except.ok (csvContent fieldnames rows) ∧
    readBack (csvContent fieldnames rows) =
      some (fieldnames, rows.map (fun r =>
        fieldnames.map (fun k => (k, (dictLookup k r).getD (""))))) := by
  refine ⟨by rw [dumpToCsv, if_pos hsub], ?_⟩
  have hparse : parseGrid (csvContent fieldnames rows).data
      = some ((fieldnames.map String.data) :: rows.map (rowCells fieldnames)) := by
    show parseGrid (renderGrid ((fieldnames.map String.data) :: rows.map (rowCells fieldnames)))
      = _
    rw [parseGrid]
    apply parseGridAux_renderGrid
    · intro r hr
      rcases List.mem_cons.mp hr with rfl | hr2
      · simpa using hne
      · obtain ⟨row, hrow, hcells⟩ := List.mem_map.mp hr2
        rw [← hcells]
        simp [rowCells, hne]
    · exact renderGrid_length_ge _
  unfold readBack
  rw [hparse]
  show some ((fieldnames.map String.data).map (fun cs => (⟨cs⟩ : String)),
      (rows.map (rowCells fieldnames)).map (fun cells =>
        ((fieldnames.map String.data).map (fun cs => (⟨cs⟩ : String))).zip
          (cells.map (fun cs => (⟨cs⟩ : String)))))
    = _
  rw [map_mk_map_data, List.map_map, rows_readback_eq]

/-- Witness for C6: two rows over columns `Index`, `IP Address`, the
second row missing the `IP Address` column, which reads back as the empty
string. -/
theorem csv_roundtrip_witness :
    ((["Index", "IP Address"] : List String) ≠ []) ∧
    (rowsWithinFieldnames ["Index", "IP Address"]
      [[("Index", "0"), ("IP Address", "1.1.1.1")], [("Index", "1")]] = true) ∧
    (dumpToCsv ["Index", "IP Address"]
        [[("Index", "0"), ("IP Address", "1.1.1.1")], [("Index", "1")]]
      = Except.ok (csvContent ["Index", "IP Address"]
          [[("Index", "0"), ("IP Address", "1.1.1.1")], [("Index", "1")]]) ∧
    readBack (csvContent ["Index", "IP Address"]
        [[("Index", "0"), ("IP Address", "1.1.1.1")], [("Index", "1")]]) =
      some (["Index", "IP Address"],
        [[("Index", "0"), ("IP Address", "1.1.1.1")], [("Index", "1"), ("IP Address", "")]])) :=
  ⟨by decide, by decide,
    csv_roundtrip ["Index", "IP Address"]
      [[("Index", "0"), ("IP Address", "1.1.1.1")], [("Index", "1")]]
      (by decide) (by decide)⟩

/-- Claim C7: for rows whose keys lie within the declared columns, the
written file is the header line of the column names in declared order,
followed by exactly one CRLF-terminated line per row holding the row's
values in that same column order, a missing column contributing an empty
value at its position. -/
theorem csv_file_content_structure (fieldnames : List String) (rows : List SRow)
    (hsub : rowsWithinFieldnames fieldnames rows = true) :
    dumpToCsv fieldnames rows = Except.ok
      ⟨renderRecord (fieldnames.map String.data) ++ '\r' :: '\n' ::
        (rows.map (fun r => renderRecord (rowCells fieldnames r) ++ ['\r', '\n'])).flatten⟩ := by
  rw [dumpToCsv, if_pos hsub]
  have h1 : renderGrid ((fieldnames.map String.data) :: rows.map (rowCells fieldnames))
      = renderRecord (fieldnames.map String.data) ++ '\r' :: '\n' ::
        (rows.map (fun r => renderRecord (rowCells fieldnames r) ++ ['\r', '\n'])).flatten := by
    rw [renderGrid.eq_def]
    show renderRecord (fieldnames.map String.data) ++ '\r' :: '\n' ::
        renderGrid (rows.map (rowCells fieldnames)) = _
    rw [renderGrid_eq_flatten, List.map_map]
    rfl
  show Except.ok
      (⟨renderGrid ((fieldnames.map String.data) :: rows.map (rowCells fieldnames))⟩ : String)
    = _
  rw [h1]

/-- Witness for C7: the written bytes at a concrete Packet, the second
row missing a column. -/
theorem csv_file_content_structure_witness :
    (rowsWithinFieldnames ["Index", "IP Address"]
      [[("Index", "0"), ("IP Address", "1.1.1.1")], [("Index", "1")]] = true) ∧
    dumpToCsv ["Index", "IP Address"]
        [[("Index", "0"), ("IP Address", "1.1.1.1")], [("Index", "1")]]
      = Except.ok ("Index,IP Address\r\n0,1.1.1.1\r\n1,\r\n") :=
  ⟨by decide,
    csv_file_content_structure ["Index", "IP Address"]
      [[("Index", "0"), ("IP Address", "1.1.1.1")], [("Index", "1")]] (by decide)⟩

/-- Claim C8: writing the same Packet twice at the same location succeeds
both times and leaves byte-identical file content after each write, and a
pre-existing file at that path (the initial file system is arbitrary) is
replaced without any error or warning. -/
theorem csv_write_idempotent (outputDir outputType sectionName subsection : String)
    (rows : List SRow) (fieldnames : List String) (fs : FileSystem)
    (hsub : rowsWithinFieldnames fieldnames rows = true) :
    ∃ fs1 fs2,
      dumpToCsvFS outputDir outputType sectionName subsection rows fieldnames fs
        = Except.ok fs1 ∧
      dumpToCsvFS outputDir outputType sectionName subsection rows fieldnames fs1
        = Except.ok fs2 ∧
      dictLookup (csvFilename outputDir sectionName subsection outputType) fs1.files
        = some (csvContent fieldnames rows) ∧
      dictLookup (csvFilename outputDir sectionName subsection outputType) fs2.files
        = some (csvContent fieldnames rows) := by
  have hdump : dumpToCsv fieldnames rows = Except.ok (csvContent fieldnames rows) := by
    rw [dumpToCsv, if_pos hsub]
  have hstep : ∀ g : FileSystem,
      dumpToCsvFS outputDir outputType sectionName subsection rows fieldnames g
        = Except.ok ⟨(if g.dirs.contains (csvDirname outputDir sectionName) = true then g.dirs
            else csvDirname outputDir sectionName :: g.dirs),
          (csvFilename outputDir sectionName subsection outputType,
            csvContent fieldnames rows) :: g.files⟩ := by
    intro g
    simp only [dumpToCsvFS, hdump, Except.ok.injEq, FileSystem.mk.injEq]
    constructor
    · split <;> rfl
    · split <;> rfl
  refine ⟨_, _, hstep fs, hstep _, ?_, ?_⟩
  · simp [dictLookup]
  · simp [dictLookup]

/-- Witness for C8 at a file system already holding a file of the target
name with different content. -/
theorem csv_write_idempotent_witness :
    (rowsWithinFieldnames ["Index"] [[("Index", "0")]] = true) ∧
    (∃ fs1 fs2,
      dumpToCsvFS ("data") ("csv") ("security") ("ip_addresses") [[("Index", "0")]] ["Index"]
          ⟨[], [("data/security/ip_addresses.csv", "old")]⟩ = Except.ok fs1 ∧
      dumpToCsvFS ("data") ("csv") ("security") ("ip_addresses") [[("Index", "0")]] ["Index"]
          fs1 = Except.ok fs2 ∧
      dictLookup (csvFilename ("data") ("security") ("ip_addresses") ("csv")) fs1.files
        = some (csvContent ["Index"] [[("Index", "0")]]) ∧
      dictLookup (csvFilename ("data") ("security") ("ip_addresses") ("csv")) fs2.files
        = some (csvContent ["Index"] [[("Index", "0")]])) :=
  ⟨by decide,
    csv_write_idempotent ("data") ("csv") ("security") ("ip_addresses")
      [[("Index", "0")]] ["Index"] ⟨[], [("data/security/ip_addresses.csv", "old")]⟩
      (by decide)⟩

end Facescraper
